import Mathlib

set_option maxHeartbeats 1000000

/-
Verification of the camera/detection pipeline of the Office-Item-classifier
repository: a shallow embedding of ModelLoader (model_loader.py),
FileProcessor (file_processor.py), CameraThread (camera_handler.py) and the
snapshot path of MainWindow (ui/main_window.py), together with theorems about
the selection, queueing, persistence and error-handling behaviour.
-/

namespace Classifier

/-- A candidate detection box as the model returns it: confidence
(box.conf), class id (box.cls) and corner coordinates (box.xyxy).
Confidences are embedded as rationals. -/
structure BoxCand where
  conf : ℚ
  cls : Nat
  x1 : Int
  y1 : Int
  x2 : Int
  y2 : Int
deriving DecidableEq, Repr

/-- The detection dictionary ModelLoader builds: class_name, confidence and
class_id; the mock-path dictionary in _process_queue has no class_id key,
hence the Option. -/
structure Detection where
  class_name : String
  confidence : ℚ
  class_id : Option Nat
deriving DecidableEq, Repr

/-- One drawing primitive recorded on an image. rect is the thickness-2
bounding rectangle of cv2.rectangle, labelBg the filled label-background
rectangle (its text-metric-dependent extent abstracted to its anchor
corner), text a cv2.putText call. -/
inductive DrawOp where
  | rect (x1 y1 x2 y2 : Int)
  | labelBg (x1 y1 : Int)
  | text (label : String) (x y : Int)
deriving DecidableEq, Repr

/-- An image value: an abstract base pixel buffer with the sequence of
drawing operations and horizontal flips applied to it. image.copy() has
value semantics at this level; aliasing of buffers is modelled separately
by the store in predict_single_store. -/
inductive Image where
  | base (id : Nat)
  | draw (img : Image) (op : DrawOp)
  | flipH (img : Image)
deriving DecidableEq, Repr

/-- The drawing operations applied on top of the base buffer, oldest
first. -/
def Image.ops : Image → List DrawOp
  | .base _ => []
  | .draw i op => Image.ops i ++ [op]
  | .flipH i => Image.ops i

/-- Whether a drawing primitive is a bounding rectangle. -/
def DrawOp.isRect : DrawOp → Bool
  | .rect _ _ _ _ => true
  | _ => false

/-- The ModelLoader fields the prediction paths read: use_mock, whether
self.model is set, and the class_names dictionary. -/
structure ModelState where
  use_mock : Bool
  modelLoaded : Bool
  class_names : List (Nat × String)
deriving DecidableEq, Repr

/-- self.class_names.get(class_id, f"Class_{class_id}"). -/
def className (names : List (Nat × String)) (cid : Nat) : String :=
  match names.lookup cid with
  | some n => n
  | none => "Class_" ++ toString cid

/-- Two-digit zero padding. -/
def pad2 (n : Nat) : String :=
  if n < 10 then "0" ++ toString n else toString n

/-- Two-decimal rendering of a confidence, modelling the f-string
{confidence:.2f}. -/
def fmt2 (q : ℚ) : String :=
  let n : ℤ := round (q * 100)
  toString (n / 100) ++ "." ++ pad2 (n % 100).toNat

/-- The detection dictionary predict_single builds for a box. -/
def mkDet (names : List (Nat × String)) (b : BoxCand) : Detection :=
  { class_name := className names b.cls, confidence := b.conf,
    class_id := some b.cls }

/-- One iteration of the selection loop of predict_single:
highest_confidence starts at 0 and a candidate replaces the current best
only when its confidence is strictly greater. -/
def selectStep (names : List (Nat × String)) (acc : ℚ × Option Detection)
    (b : BoxCand) : ℚ × Option Detection :=
  if acc.1 < b.conf then (b.conf, some (mkDet names b)) else acc

/-- The full selection loop of predict_single over result.boxes. -/
def selectBest (names : List (Nat × String)) (boxes : List BoxCand) :
    ℚ × Option Detection :=
  boxes.foldl (selectStep names) (0, none)

/-- Drawing of the chosen box in predict_single: bounding rectangle,
filled label background, then the label text
f"{class_name} {confidence:.2f}" at (x1, y1 - 5). -/
def drawOn (names : List (Nat × String)) (b : BoxCand) (img : Image) :
    Image :=
  ((img.draw (DrawOp.rect b.x1 b.y1 b.x2 b.y2)).draw
      (DrawOp.labelBg b.x1 b.y1)).draw
    (DrawOp.text (className names b.cls ++ " " ++ fmt2 b.conf) b.x1
      (b.y1 - 5))

/-- Outcome of one call into the external model: the candidate boxes it
returned (possibly empty, covering an empty results list or absent boxes
as well), or an exception it raised. -/
inductive InferOutcome where
  | ok (boxes : List BoxCand)
  | err (msg : String)
deriving DecidableEq, Repr

/-- ModelLoader.predict_single on image values. Mock mode or a missing
model returns the input with detection None; an exception anywhere in the
body is caught and returns the input with detection None; otherwise the
strictly-greater scan picks the best detection and the first box whose
confidence equals the recorded maximum is drawn on a copy of the input. -/
def predict_single_core (m : ModelState) (img : Image)
    (outcome : InferOutcome) : Image × Option Detection :=
  if m.use_mock || !m.modelLoaded then (img, none)
  else
    match outcome with
    | .err _ => (img, none)
    | .ok boxes =>
      let sel := selectBest m.class_names boxes
      match sel.2 with
      | none => (img, none)
      | some det =>
        match boxes.find? (fun b => decide (b.conf = sel.1)) with
        | some b => (drawOn m.class_names b img, some det)
        | none => (img, some det)

/-- Specification-side selection, following the spec wording: the
candidate with the numerically highest confidence, ties broken by
first-encountered order. -/
def specStep (acc : Option BoxCand) (b : BoxCand) : Option BoxCand :=
  match acc with
  | none => some b
  | some c => if c.conf < b.conf then some b else some c

/-- Specification-side best candidate of a list. -/
def specFirstMax (boxes : List BoxCand) : Option BoxCand :=
  boxes.foldl specStep none

/-- m is an element of l, every element before it has strictly smaller
confidence, and every element after it has no larger confidence. -/
def IsFirstMax (l : List BoxCand) (m : BoxCand) : Prop :=
  ∃ l1 l2, l = l1 ++ m :: l2 ∧ (∀ b ∈ l1, b.conf < m.conf) ∧
    ∀ b ∈ l2, b.conf ≤ m.conf

/-- Structure of the specification-side fold: starting from a current best
c it returns a maximum of c and the list, preferring the earliest element
that strictly improves on everything before it. -/
lemma specFold_spec (l : List BoxCand) (c : BoxCand) :
    ∃ d, l.foldl specStep (some c) = some d ∧ c.conf ≤ d.conf ∧
      (∀ b ∈ l, b.conf ≤ d.conf) ∧
      (d = c ∨ ∃ l1 l2, l = l1 ++ d :: l2 ∧ c.conf < d.conf ∧
        ∀ b ∈ l1, b.conf < d.conf) := by
  induction l generalizing c with
  | nil => exact ⟨c, rfl, le_refl _, by simp, Or.inl rfl⟩
  | cons b t ih =>
    by_cases h : c.conf < b.conf
    · obtain ⟨d, hd, hbd, hall, hcase⟩ := ih b
      refine ⟨d, ?_, le_of_lt (lt_of_lt_of_le h hbd), ?_, ?_⟩
      · simpa [specStep, h] using hd
      · intro x hx
        rcases List.mem_cons.mp hx with rfl | hx
        · exact hbd
        · exact hall x hx
      · rcases hcase with rfl | ⟨l1, l2, hl, hcd, hl1⟩
        · exact Or.inr ⟨[], t, rfl, h, by simp⟩
        · refine Or.inr ⟨b :: l1, l2, by rw [hl, List.cons_append], lt_trans h hcd, ?_⟩
          intro x hx
          rcases List.mem_cons.mp hx with rfl | hx
          · exact hcd
          · exact hl1 x hx
    · obtain ⟨d, hd, hcd, hall, hcase⟩ := ih c
      refine ⟨d, ?_, hcd, ?_, ?_⟩
      · simpa [specStep, h] using hd
      · intro x hx
        rcases List.mem_cons.mp hx with rfl | hx
        · exact le_trans (le_of_not_lt h) hcd
        · exact hall x hx
      · rcases hcase with rfl | ⟨l1, l2, hl, hcd2, hl1⟩
        · exact Or.inl rfl
        · refine Or.inr ⟨b :: l1, l2, by rw [hl, List.cons_append], hcd2, ?_⟩
          intro x hx
          rcases List.mem_cons.mp hx with rfl | hx
          · exact lt_of_le_of_lt (le_of_not_lt h) hcd2
          · exact hl1 x hx

/-- On a nonempty list the specification-side selection returns an element
that is a first-encountered maximum. -/
lemma specFirstMax_isFirstMax (l : List BoxCand) (hne : l ≠ []) :
    ∃ d, specFirstMax l = some d ∧ IsFirstMax l d := by
  match l, hne with
  | b :: t, _ =>
    obtain ⟨d, hd, hbd, hall, hcase⟩ := specFold_spec t b
    refine ⟨d, ?_, ?_⟩
    · simpa [specFirstMax, specStep] using hd
    · rcases hcase with rfl | ⟨l1, l2, hl, hcd, hl1⟩
      · exact ⟨[], t, rfl, by simp, hall⟩
      · refine ⟨b :: l1, l2, by rw [hl, List.cons_append], ?_, ?_⟩
        · intro x hx
          rcases List.mem_cons.mp hx with rfl | hx
          · exact hcd
          · exact hl1 x hx
        · intro x hx
          exact hall x (by rw [hl]; exact List.mem_append_right _ (List.mem_cons_of_mem _ hx))

/-- The selection loop of predict_single computes, in lock step with the
specification-side fold, the running maximum and the detection dictionary
of the current best candidate, as long as every confidence is positive. -/
lemma select_agrees (names : List (Nat × String)) :
    ∀ (l : List BoxCand) (h : ℚ) (ao : Option BoxCand),
      (∀ b ∈ l, 0 < b.conf) →
      ((ao = none ∧ h = 0) ∨ ∃ c, ao = some c ∧ h = c.conf ∧ 0 < c.conf) →
      (l.foldl specStep ao = none ∧
        l.foldl (selectStep names) (h, ao.map (mkDet names)) = (0, none)) ∨
      (∃ d, l.foldl specStep ao = some d ∧ 0 < d.conf ∧
        l.foldl (selectStep names) (h, ao.map (mkDet names)) =
          (d.conf, some (mkDet names d))) := by
  intro l
  induction l with
  | nil =>
    intro h ao _ hinv
    rcases hinv with ⟨rfl, rfl⟩ | ⟨c, rfl, rfl, hc⟩
    · exact Or.inl ⟨rfl, rfl⟩
    · exact Or.inr ⟨c, rfl, hc, rfl⟩
  | cons b t ih =>
    intro h ao hpos hinv
    have hb : 0 < b.conf := hpos b (List.mem_cons_self b t)
    have ht : ∀ x ∈ t, 0 < x.conf := fun x hx => hpos x (List.mem_cons_of_mem _ hx)
    rcases hinv with ⟨rfl, rfl⟩ | ⟨c, rfl, rfl, hc⟩
    · have : selectStep names (0, Option.map (mkDet names) none) b =
          (b.conf, some (mkDet names b)) := by
        simp [selectStep, hb]
      simp only [List.foldl_cons, this, specStep]
      have := ih b.conf (some b) ht (Or.inr ⟨b, rfl, rfl, hb⟩)
      simpa using this
    · by_cases hlt : c.conf < b.conf
      · have hsel : selectStep names (c.conf, Option.map (mkDet names) (some c)) b =
            (b.conf, some (mkDet names b)) := by
          simp [selectStep, hlt]
        have hspec : specStep (some c) b = some b := by simp [specStep, hlt]
        simp only [List.foldl_cons, hsel, hspec]
        have := ih b.conf (some b) ht (Or.inr ⟨b, rfl, rfl, hb⟩)
        simpa using this
      · have hsel : selectStep names (c.conf, Option.map (mkDet names) (some c)) b =
            (c.conf, some (mkDet names c)) := by
          simp [selectStep, hlt]
        have hspec : specStep (some c) b = some c := by simp [specStep, hlt]
        simp only [List.foldl_cons, hsel, hspec]
        have := ih c.conf (some c) ht (Or.inr ⟨c, rfl, rfl, hc⟩)
        simpa using this

/-- find? on a decomposed list whose head part misses the predicate finds
the split point. -/
lemma find_first_eq (q : ℚ) :
    ∀ (l1 : List BoxCand) (d : BoxCand) (l2 : List BoxCand), d.conf = q →
      (∀ b ∈ l1, b.conf ≠ q) →
      (l1 ++ d :: l2).find? (fun b => decide (b.conf = q)) = some d := by
  intro l1
  induction l1 with
  | nil =>
    intro d l2 hd _
    simp [List.find?, hd]
  | cons a t ih =>
    intro d l2 hd hne
    have ha : a.conf ≠ q := hne a (List.mem_cons_self a t)
    rw [List.cons_append, List.find?_cons_of_neg]
    · exact ih d l2 hd fun b hb => hne b (List.mem_cons_of_mem _ hb)
    · simp [ha]

/-- selectBest on a nonempty list of positive-confidence candidates
returns the confidence and detection dictionary of the first-encountered
maximum, as computed by the specification-side selection. -/
lemma selectBest_eq_specFirstMax (names : List (Nat × String))
    (boxes : List BoxCand) (d : BoxCand)
    (hpos : ∀ b ∈ boxes, 0 < b.conf)
    (hd : specFirstMax boxes = some d) :
    selectBest names boxes = (d.conf, some (mkDet names d)) := by
  have h := select_agrees names boxes 0 none hpos (Or.inl ⟨rfl, rfl⟩)
  rcases h with ⟨hnone, _⟩ | ⟨d2, hd2, _, hfold⟩
  · rw [specFirstMax] at hd
    rw [hd] at hnone
    exact absurd hnone (by simp)
  · rw [specFirstMax] at hd
    rw [hd] at hd2
    cases hd2
    simpa [selectBest] using hfold

/-- C1: for every list of positive-confidence candidate detections the
model produced, predict_single returns the detection dictionary of the
candidate with the numerically maximal confidence, the first-encountered
one when several share the maximum, and the returned image is the input
image extended with exactly one bounding rectangle together with a label
of the form class name, space, confidence to two decimals. -/
theorem predict_single_returns_first_max (m : ModelState) (img : Image)
    (boxes : List BoxCand) (hmock : m.use_mock = false)
    (hload : m.modelLoaded = true) (hpos : ∀ b ∈ boxes, 0 < b.conf)
    (hne : boxes ≠ []) :
    ∃ d, specFirstMax boxes = some d ∧ IsFirstMax boxes d ∧
      (predict_single_core m img (.ok boxes)).2 =
        some (mkDet m.class_names d) ∧
      (predict_single_core m img (.ok boxes)).1.ops = img.ops ++
        [DrawOp.rect d.x1 d.y1 d.x2 d.y2, DrawOp.labelBg d.x1 d.y1,
          DrawOp.text (className m.class_names d.cls ++ " " ++ fmt2 d.conf)
            d.x1 (d.y1 - 5)] ∧
      (predict_single_core m img (.ok boxes)).1.ops.countP DrawOp.isRect =
        img.ops.countP DrawOp.isRect + 1 := by
  obtain ⟨d, hd, hfm⟩ := specFirstMax_isFirstMax boxes hne
  have hsel := selectBest_eq_specFirstMax m.class_names boxes d hpos hd
  obtain ⟨l1, l2, hsplit, hl1, hl2⟩ := id hfm
  have hfind : boxes.find? (fun b => decide (b.conf = d.conf)) = some d := by
    rw [hsplit]
    exact find_first_eq d.conf l1 d l2 rfl fun b hb => ne_of_lt (hl1 b hb)
  have hcore : predict_single_core m img (.ok boxes) =
      (drawOn m.class_names d img, some (mkDet m.class_names d)) := by
    simp [predict_single_core, hmock, hload, hsel, hfind]
  refine ⟨d, hd, hfm, ?_, ?_, ?_⟩
  · rw [hcore]
  · rw [hcore]
    simp [drawOn, Image.ops, List.append_assoc]
  · rw [hcore]
    simp [drawOn, Image.ops, List.countP_append, List.countP_cons,
      DrawOp.isRect]

/-- Concrete run of predict_single_returns_first_max on the example frame
of the spec: a Mug candidate at 0.81 and a Pen candidate at 0.40. -/
theorem predict_single_returns_first_max_witness :
    ∃ d, specFirstMax [⟨mkRat 81 100, 5, 10, 10, 100, 100⟩,
        ⟨mkRat 2 5, 7, 200, 200, 50, 50⟩] = some d ∧
      IsFirstMax [⟨mkRat 81 100, 5, 10, 10, 100, 100⟩,
        ⟨mkRat 2 5, 7, 200, 200, 50, 50⟩] d ∧
      (predict_single_core ⟨false, true, [(5, "Mug"), (7, "Pen")]⟩
          (Image.base 0)
          (.ok [⟨mkRat 81 100, 5, 10, 10, 100, 100⟩,
            ⟨mkRat 2 5, 7, 200, 200, 50, 50⟩])).2 =
        some (mkDet [(5, "Mug"), (7, "Pen")] d) ∧
      (predict_single_core ⟨false, true, [(5, "Mug"), (7, "Pen")]⟩
          (Image.base 0)
          (.ok [⟨mkRat 81 100, 5, 10, 10, 100, 100⟩,
            ⟨mkRat 2 5, 7, 200, 200, 50, 50⟩])).1.ops =
        (Image.base 0).ops ++
          [DrawOp.rect d.x1 d.y1 d.x2 d.y2, DrawOp.labelBg d.x1 d.y1,
            DrawOp.text ((className [(5, "Mug"), (7, "Pen")] d.cls) ++ " " ++
              fmt2 d.conf) d.x1 (d.y1 - 5)] ∧
      (predict_single_core ⟨false, true, [(5, "Mug"), (7, "Pen")]⟩
          (Image.base 0)
          (.ok [⟨mkRat 81 100, 5, 10, 10, 100, 100⟩,
            ⟨mkRat 2 5, 7, 200, 200, 50, 50⟩])).1.ops.countP DrawOp.isRect =
        (Image.base 0).ops.countP DrawOp.isRect + 1 :=
  predict_single_returns_first_max ⟨false, true, [(5, "Mug"), (7, "Pen")]⟩
    (Image.base 0)
    [⟨mkRat 81 100, 5, 10, 10, 100, 100⟩, ⟨mkRat 2 5, 7, 200, 200, 50, 50⟩]
    rfl rfl (by decide) (by decide)

/-- What the external YOLO constructor and warmup call did: success
carries the names mapping the model exposes (none when the names
attribute is absent, and Python truthiness also discards an empty
mapping), failure carries the exception message and whether self.model
had already been assigned before the exception. -/
inductive LoadOutcome where
  | ok (names : Option (List (Nat × String)))
  | fail (modelSet : Bool) (msg : String)
deriving DecidableEq, Repr

/-- The fallback ten-class map hard-coded in load_model. -/
def defaultNames : List (Nat × String) :=
  [(0, "Bin"), (1, "Bottle"), (2, "Keyboard"), (3, "Laptop"), (4, "Mouse"),
    (5, "Mug"), (6, "Notebook"), (7, "Pen"), (8, "Phone"), (9, "Stapler")]

/-- ModelLoader.load_model: in mock mode installs the single Object
class; on a successful load installs the model names or the default map;
on any exception switches permanently to mock mode with the single
Object class. The Bool is the Python return value. -/
def load_model (m : ModelState) (out : LoadOutcome) : ModelState × Bool :=
  if m.use_mock then ({ m with class_names := [(0, "Object")] }, true)
  else
    match out with
    | .ok names =>
      ({ m with
          modelLoaded := true
          class_names := (match names with
            | some ns => if ns = [] then defaultNames else ns
            | none => defaultNames) }, true)
    | .fail modelSet _ =>
      ({ m with
          use_mock := true
          modelLoaded := m.modelLoaded || modelSet
          class_names := [(0, "Object")] }, true)

/-- ModelLoader.predict_single with the frame buffers held in a store of
images: the caller passes a reference into the store, image.copy()
allocates a fresh buffer at the end of the store, and the drawing calls
mutate only that fresh buffer. Returns the new store, the reference of
the returned image and the detection. -/
def predict_single_store (m : ModelState) (store : List Image) (r : Nat)
    (outcome : InferOutcome) : List Image × Nat × Option Detection :=
  if m.use_mock || !m.modelLoaded then (store, r, none)
  else
    match outcome with
    | .err _ => (store, r, none)
    | .ok boxes =>
      let sel := selectBest m.class_names boxes
      match sel.2 with
      | none => (store, r, none)
      | some det =>
        let img := store.getD r (Image.base 0)
        match boxes.find? (fun b => decide (b.conf = sel.1)) with
        | some b =>
          (store ++ [drawOn m.class_names b img], store.length, some det)
        | none => (store ++ [img], store.length, some det)

/-- C10: load_model returns True on every path, and a load failure is
observable only through use_mock becoming true and class_names being
reduced to the single Object entry, never through the return value. -/
theorem load_model_always_true (m : ModelState) (out : LoadOutcome) :
    (load_model m out).2 = true ∧
    (∀ modelSet msg, (load_model m (.fail modelSet msg)).1.use_mock = true ∧
      (load_model m (.fail modelSet msg)).1.class_names = [(0, "Object")]) := by
  refine ⟨?_, ?_⟩
  · by_cases h : m.use_mock
    · simp [load_model, h]
    · cases out <;> simp [load_model, h]
  · intro modelSet msg
    by_cases h : m.use_mock
    · simp [load_model, h]
    · simp [load_model, h]

/-- C6: every inference exception inside predict_single is caught and the
call returns the unmodified input image with no detection, both at the
level of image values and at the level of the frame store. -/
theorem predict_single_catches_errors (m : ModelState) (img : Image)
    (store : List Image) (r : Nat) (msg : String) :
    predict_single_core m img (.err msg) = (img, none) ∧
    predict_single_store m store r (.err msg) = (store, r, none) := by
  constructor
  · by_cases h : m.use_mock || !m.modelLoaded <;>
      simp [predict_single_core, h]
  · by_cases h : m.use_mock || !m.modelLoaded <;>
      simp [predict_single_store, h]

/-- C9: predict_single never mutates the frame the caller passed in:
every store position that existed before the call holds the same image
afterwards, and in the detection case the returned image is a freshly
allocated buffer whose drawing operations extend those of the input
frame. -/
theorem predict_single_no_mutation (m : ModelState) (store : List Image)
    (r : Nat) (outcome : InferOutcome) :
    (∀ i, i < store.length →
      (predict_single_store m store r outcome).1[i]? = store[i]?) ∧
    (∀ det, (predict_single_store m store r outcome).2.2 = some det →
      (predict_single_store m store r outcome).2.1 = store.length ∧
      ∃ extra, ((predict_single_store m store r outcome).1.getD
          (predict_single_store m store r outcome).2.1 (Image.base 0)).ops =
        (store.getD r (Image.base 0)).ops ++ extra) := by
  by_cases hmk : m.use_mock || !m.modelLoaded
  · constructor
    · intro i _
      simp [predict_single_store, hmk]
    · intro det hdet
      simp [predict_single_store, hmk] at hdet
  · cases outcome with
    | err msg =>
      constructor
      · intro i _
        simp [predict_single_store, hmk]
      · intro det hdet
        simp [predict_single_store, hmk] at hdet
    | ok boxes =>
      cases hsel : (selectBest m.class_names boxes).2 with
      | none =>
        constructor
        · intro i _
          simp [predict_single_store, hmk, hsel]
        · intro det hdet
          simp [predict_single_store, hmk, hsel] at hdet
      | some det0 =>
        cases hfind : boxes.find?
            (fun b => decide (b.conf = (selectBest m.class_names boxes).1)) with
        | none =>
          constructor
          · intro i hi
            simp only [predict_single_store, hmk, if_false, Bool.false_eq_true,
              hsel, hfind]
            exact List.getElem?_append_left hi
          · intro det hdet
            refine ⟨?_, [], ?_⟩ <;>
              simp [predict_single_store, hmk, hsel, hfind,
                List.getD, List.getElem?_concat_length]
        | some b =>
          constructor
          · intro i hi
            simp only [predict_single_store, hmk, if_false, Bool.false_eq_true,
              hsel, hfind]
            exact List.getElem?_append_left hi
          · intro det hdet
            refine ⟨?_, [DrawOp.rect b.x1 b.y1 b.x2 b.y2,
              DrawOp.labelBg b.x1 b.y1,
              DrawOp.text (className m.class_names b.cls ++ " " ++
                fmt2 b.conf) b.x1 (b.y1 - 5)], ?_⟩ <;>
              simp [predict_single_store, hmk, hsel, hfind, List.getD,
                List.getElem?_concat_length, drawOn, Image.ops]

/-- Concrete run of predict_single_no_mutation: one stored frame, one
candidate box, the original frame is untouched and the fresh buffer
extends it. -/
theorem predict_single_no_mutation_witness :
    ((predict_single_store ⟨false, true, [(0, "Bin")]⟩ [Image.base 7] 0
        (.ok [⟨mkRat 1 2, 0, 1, 2, 3, 4⟩])).1[0]? =
      [Image.base 7][0]?) ∧
    ((predict_single_store ⟨false, true, [(0, "Bin")]⟩ [Image.base 7] 0
        (.ok [⟨mkRat 1 2, 0, 1, 2, 3, 4⟩])).2.1 = 1 ∧
      ∃ extra, ((predict_single_store ⟨false, true, [(0, "Bin")]⟩
          [Image.base 7] 0
          (.ok [⟨mkRat 1 2, 0, 1, 2, 3, 4⟩])).1.getD
            (predict_single_store ⟨false, true, [(0, "Bin")]⟩ [Image.base 7] 0
              (.ok [⟨mkRat 1 2, 0, 1, 2, 3, 4⟩])).2.1 (Image.base 0)).ops =
        ([Image.base 7].getD 0 (Image.base 0)).ops ++ extra) :=
  ⟨(predict_single_no_mutation ⟨false, true, [(0, "Bin")]⟩ [Image.base 7] 0
      (.ok [⟨mkRat 1 2, 0, 1, 2, 3, 4⟩])).1 0 (by decide),
    (predict_single_no_mutation ⟨false, true, [(0, "Bin")]⟩ [Image.base 7] 0
      (.ok [⟨mkRat 1 2, 0, 1, 2, 3, 4⟩])).2
      ⟨"Bin", mkRat 1 2, some 0⟩ (by rfl)⟩

/-- The mock detection dictionary of _process_queue; it has no class_id
key. -/
def mockDetection : Detection :=
  { class_name := "Mock", confidence := mkRat 95 100, class_id := none }

/-- The mock annotation of _process_queue: the fixed rectangle
(50,50)-(200,200) and the Mock Detection text at (60,40), drawn on a
copy of the frame. -/
def mockAnnotate (frame : Image) : Image :=
  (frame.draw (DrawOp.rect 50 50 200 200)).draw
    (DrawOp.text "Mock Detection" 60 40)

/-- The cross-thread state of the asynchronous detection path: the two
Queue(maxsize=1) slots, whose reachable contents are empty or a single
element, plus last_result and the is_processing flag. -/
structure AsyncState where
  detection_queue : Option Image
  result_queue : Option (Image × Option Detection)
  last_result : Option (Image × Option Detection)
  is_processing : Bool
deriving DecidableEq, Repr

/-- Number of frames queued for the background loop. -/
def queueDepth (st : AsyncState) : Nat :=
  match st.detection_queue with
  | none => 0
  | some _ => 1

/-- The enqueue half of predict_async: nothing is queued when the loop
is not processing, and a frame is queued only when the submission slot
is empty; a full slot drops the frame silently (put_nowait inside a
try/except pass). -/
def submitHalf (st : AsyncState) (frame : Image) : AsyncState :=
  if !st.is_processing then st
  else
    match st.detection_queue with
    | none => { st with detection_queue := some frame }
    | some _ => st

/-- The dequeue half of predict_async: result_queue.get_nowait when a
result is present, otherwise last_result, otherwise the input frame with
no detection. -/
def getLatestHalf (st : AsyncState) (frame : Image) :
    AsyncState × (Image × Option Detection) :=
  match st.result_queue with
  | some r => ({ st with result_queue := none }, r)
  | none =>
    match st.last_result with
    | some lr => (st, lr)
    | none => (st, (frame, none))

/-- ModelLoader.predict_async: early return when the loop is not
processing, otherwise submit then poll. -/
def predict_async (st : AsyncState) (frame : Image) :
    AsyncState × (Image × Option Detection) :=
  if !st.is_processing then (st, (frame, none))
  else getLatestHalf (submitHalf st frame) frame

/-- One iteration of the _process_queue loop body. An empty submission
slot means the bounded get timed out and the loop just continues. On a
queued frame, mock mode produces the fixed annotation and the Mock
detection, otherwise the model is called with max_det 1 and the first
returned box makes the detection over an unannotated copy; either way
last_result is set and the result is published only when the result
slot is currently empty. A model exception is swallowed by the bare
except after the frame was already taken, so nothing is published. The
None-frame sentinel of the source is unreachable because predict_async
only ever queues real frames, so it is not modelled. -/
def processStep (m : ModelState) (st : AsyncState)
    (outcome : InferOutcome) : AsyncState :=
  match st.detection_queue with
  | none => st
  | some frame =>
    let st1 := { st with detection_queue := none }
    if m.use_mock then
      let r := (mockAnnotate frame, some mockDetection)
      { st1 with
          last_result := some r
          result_queue := (match st1.result_queue with
            | none => some r
            | some q => some q) }
    else
      match outcome with
      | .err _ => st1
      | .ok boxes =>
        let det : Option Detection := (match boxes with
          | [] => none
          | b :: _ => some (mkDet m.class_names b))
        let r := (frame, det)
        { st1 with
            last_result := some r
            result_queue := (match st1.result_queue with
              | none => some r
              | some q => some q) }

/-- C3: a submit while the submission slot is occupied is dropped
silently and changes nothing; after two consecutive submits from an
empty slot the slot holds the first frame, the queue depth never
exceeds one, and the processing loop consumes exactly that oldest
frame. -/
theorem submit_drops_when_full (st : AsyncState) (f g : Image)
    (m : ModelState) (outcome : InferOutcome)
    (hrun : st.is_processing = true) (hempty : st.detection_queue = none) :
    (∀ (st2 : AsyncState) (h : Image), st2.detection_queue ≠ none →
      submitHalf st2 h = st2) ∧
    (submitHalf (submitHalf st f) g).detection_queue = some f ∧
    (∀ (st2 : AsyncState) (h : Image), queueDepth (submitHalf st2 h) ≤ 1) ∧
    (∀ (st2 : AsyncState) (f2 : Image), st2.detection_queue = some f2 →
      (processStep m st2 outcome).detection_queue = none ∧
      (m.use_mock = true → (processStep m st2 outcome).last_result =
        some (mockAnnotate f2, some mockDetection))) := by
  refine ⟨?_, ?_, ?_, ?_⟩
  · intro st2 h hful
    cases hq : st2.detection_queue with
    | none => exact absurd hq hful
    | some q =>
      by_cases hp : st2.is_processing <;> simp [submitHalf, hp, hq]
  · have h1 : submitHalf st f = { st with detection_queue := some f } := by
      simp [submitHalf, hrun, hempty]
    rw [h1]
    simp [submitHalf, hrun]
  · intro st2 h
    by_cases hp : st2.is_processing <;>
      cases hq : st2.detection_queue <;>
        simp [submitHalf, queueDepth, hp, hq]
  · intro st2 f2 hq
    by_cases hm : m.use_mock
    · constructor
      · simp [processStep, hq, hm]
      · intro _
        simp [processStep, hq, hm]
    · refine ⟨?_, fun hmm => absurd hmm hm⟩
      cases outcome with
      | err msg => simp [processStep, hq, hm]
      | ok boxes => cases boxes <;> simp [processStep, hq, hm]

/-- Concrete run of submit_drops_when_full: a running empty pipeline in
mock mode, two submitted frames, the first is kept and processed. -/
theorem submit_drops_when_full_witness :
    (∀ (st2 : AsyncState) (h : Image), st2.detection_queue ≠ none →
      submitHalf st2 h = st2) ∧
    (submitHalf (submitHalf ⟨none, none, none, true⟩ (Image.base 1))
      (Image.base 2)).detection_queue = some (Image.base 1) ∧
    (∀ (st2 : AsyncState) (h : Image), queueDepth (submitHalf st2 h) ≤ 1) ∧
    (∀ (st2 : AsyncState) (f2 : Image), st2.detection_queue = some f2 →
      (processStep ⟨true, false, [(0, "Object")]⟩ st2 (.ok [])).detection_queue = none ∧
      ((⟨true, false, [(0, "Object")]⟩ : ModelState).use_mock = true →
        (processStep ⟨true, false, [(0, "Object")]⟩ st2 (.ok [])).last_result =
          some (mockAnnotate f2, some mockDetection))) :=
  submit_drops_when_full ⟨none, none, none, true⟩ (Image.base 1)
    (Image.base 2) ⟨true, false, [(0, "Object")]⟩ (.ok []) rfl rfl

/-- C4: predict_async is a total function of the queue state. Before any
result has ever been published it returns the input frame with no
detection, whatever the pipeline state; with the loop running it
returns a freshly published result when one is present and otherwise
the last known result. -/
theorem predict_async_latest (st : AsyncState) (frame : Image) :
    (st.result_queue = none → st.last_result = none →
      (predict_async st frame).2 = (frame, none)) ∧
    (st.is_processing = true → ∀ r, st.result_queue = some r →
      (predict_async st frame).2 = r) ∧
    (st.is_processing = true → st.result_queue = none →
      ∀ lr, st.last_result = some lr → (predict_async st frame).2 = lr) := by
  refine ⟨?_, ?_, ?_⟩
  · intro hr hl
    by_cases hp : st.is_processing
    · cases hq : st.detection_queue <;>
        simp [predict_async, submitHalf, getLatestHalf, hp, hq, hr, hl]
    · simp [predict_async, hp]
  · intro hp r hr
    cases hq : st.detection_queue <;>
      simp [predict_async, submitHalf, getLatestHalf, hp, hq, hr]
  · intro hp hr lr hl
    cases hq : st.detection_queue <;>
      simp [predict_async, submitHalf, getLatestHalf, hp, hq, hr, hl]

/-- Concrete runs of predict_async_latest: the cold-start state returns
the input frame with no detection, and a pending published result is
returned as is. -/
theorem predict_async_latest_witness :
    (predict_async ⟨none, none, none, true⟩ (Image.base 3)).2 =
      (Image.base 3, none) ∧
    (predict_async ⟨none, some (Image.base 4, none), none, true⟩
      (Image.base 3)).2 = (Image.base 4, none) :=
  ⟨(predict_async_latest ⟨none, none, none, true⟩ (Image.base 3)).1 rfl rfl,
    (predict_async_latest ⟨none, some (Image.base 4, none), none, true⟩
      (Image.base 3)).2.1 rfl (Image.base 4, none) rfl⟩

/-- C2 counterexample: after a model-load failure the synchronous
predict_single returns no detection at all, not a placeholder: at the
concrete post-failure state and a concrete candidate list the returned
detection is None. -/
theorem predict_single_mock_no_placeholder :
    (predict_single_core
      (load_model ⟨false, false, []⟩ (.fail false "disk full")).1
      (Image.base 0) (.ok [⟨mkRat 9 10, 0, 1, 1, 2, 2⟩])).2 = none := by
  rfl

/-- C2 amended: after a model-load failure load_model still returns True
and switches permanently to placeholder mode; in that mode the
asynchronous processing loop publishes the fixed Mock detection with
confidence 0.95 and the fixed rectangle (50,50)-(200,200) for every
queued frame, while the synchronous predict_single returns the
unmodified input with no detection. -/
theorem load_failure_placeholder_behaviour (m0 : ModelState)
    (modelSet : Bool) (msg : String) (img : Image) (st : AsyncState)
    (frame : Image) (outc : InferOutcome)
    (hq : st.detection_queue = some frame) :
    (load_model m0 (.fail modelSet msg)).2 = true ∧
    (load_model m0 (.fail modelSet msg)).1.use_mock = true ∧
    predict_single_core (load_model m0 (.fail modelSet msg)).1 img outc =
      (img, none) ∧
    (processStep (load_model m0 (.fail modelSet msg)).1 st outc).last_result =
      some (mockAnnotate frame, some mockDetection) ∧
    mockDetection.class_name = "Mock" ∧
    mockDetection.confidence = mkRat 95 100 := by
  have hmock : (load_model m0 (.fail modelSet msg)).1.use_mock = true := by
    by_cases h : m0.use_mock <;> simp [load_model, h]
  have hret : (load_model m0 (.fail modelSet msg)).2 = true := by
    by_cases h : m0.use_mock <;> simp [load_model, h]
  refine ⟨hret, hmock, ?_, ?_, rfl, rfl⟩
  · simp [predict_single_core, hmock]
  · simp [processStep, hq, hmock]

/-- Concrete run of load_failure_placeholder_behaviour after a failed
load on a fresh loader state. -/
theorem load_failure_placeholder_behaviour_witness :
    (load_model ⟨false, false, []⟩ (.fail false "disk full")).2 = true ∧
    (load_model ⟨false, false, []⟩ (.fail false "disk full")).1.use_mock =
      true ∧
    predict_single_core (load_model ⟨false, false, []⟩
        (.fail false "disk full")).1 (Image.base 0) (.ok []) =
      (Image.base 0, none) ∧
    (processStep (load_model ⟨false, false, []⟩ (.fail false "disk full")).1
        ⟨some (Image.base 5), none, none, true⟩ (.ok [])).last_result =
      some (mockAnnotate (Image.base 5), some mockDetection) ∧
    mockDetection.class_name = "Mock" ∧
    mockDetection.confidence = mkRat 95 100 :=
  load_failure_placeholder_behaviour ⟨false, false, []⟩ false "disk full"
    (Image.base 0) ⟨some (Image.base 5), none, none, true⟩ (Image.base 5)
    (.ok []) rfl

/-- One input entry of FileProcessor.run: an unreadable file (cv2.imread
returned None), a readable image together with what the model returned
on it, or an entry whose body raised after the progress message, for
instance inside imwrite. -/
inductive FileEntry where
  | invalid (name : String)
  | valid (name : String) (img : Image) (outcome : InferOutcome)
  | raisesErr (name : String) (msg : String)
deriving DecidableEq, Repr

/-- One observable event of the batch and snapshot paths: a
progress_update message, a persisted file, an image_processed signal or
the finished_processing signal. -/
inductive Event where
  | progress (msg : String)
  | saved (path : String) (img : Image)
  | processedSignal (img : Image) (det : Option Detection) (name : String)
  | finished
deriving DecidableEq, Repr

/-- Whether an event is the completion signal. -/
def Event.isFinished : Event → Bool
  | .finished => true
  | _ => false

/-- Whether an event is a progress_update message. -/
def Event.isProgress : Event → Bool
  | .progress _ => true
  | _ => false

/-- The per-file body of FileProcessor.run for the file at 0-based
position i of total files: the per-file progress message, then either the
skip message for an unreadable file, or the image_processed signal
followed by the save (into the output directory, prefixing the source
filename) and its message when a detection is present, or the no
detection message, or the caught-exception message. -/
def processFile (m : ModelState) (total i : Nat) (e : FileEntry) :
    List Event :=
  match e with
  | .invalid name =>
    [Event.progress ("Processing " ++ toString (i + 1) ++ "/" ++
        toString total ++ ": " ++ name),
      Event.progress ("Skipped (invalid): " ++ name)]
  | .valid name img outcome =>
    let pr := predict_single_core m img outcome
    Event.progress ("Processing " ++ toString (i + 1) ++ "/" ++
        toString total ++ ": " ++ name) ::
      Event.processedSignal pr.1 pr.2 name ::
      (match pr.2 with
        | some det =>
          [Event.saved ("output/detected_" ++ name) pr.1,
            Event.progress ("Detected: " ++ name ++ " - " ++
              det.class_name ++ " (" ++ fmt2 det.confidence ++ ")")]
        | none => [Event.progress ("No detection: " ++ name)])
  | .raisesErr name msg =>
    [Event.progress ("Processing " ++ toString (i + 1) ++ "/" ++
        toString total ++ ": " ++ name),
      Event.progress ("Error: " ++ name ++ " - " ++ msg)]

/-- FileProcessor.run: every entry is visited in order, each producing
its events; a per-item exception is caught inside the loop body and the
loop continues; finished_processing is emitted once at the very end. -/
def runBatch (m : ModelState) (files : List FileEntry) : List Event :=
  (files.enum.map (fun p => processFile m files.length p.1 p.2)).flatten ++
    [Event.finished]

/-- No per-file chunk contains the completion signal. -/
lemma processFile_no_finished (m : ModelState) (total i : Nat)
    (e : FileEntry) :
    (processFile m total i e).countP Event.isFinished = 0 := by
  cases e with
  | invalid name => simp [processFile, Event.isFinished]
  | raisesErr name msg => simp [processFile, Event.isFinished]
  | valid name img outcome =>
    cases hpr : (predict_single_core m img outcome).2 <;>
      simp [processFile, hpr, Event.isFinished]

/-- Every per-file chunk contains at least one progress message. -/
lemma processFile_has_progress (m : ModelState) (total i : Nat)
    (e : FileEntry) :
    1 ≤ (processFile m total i e).countP Event.isProgress := by
  cases e with
  | invalid name => simp [processFile, Event.isProgress]
  | raisesErr name msg => simp [processFile, Event.isProgress]
  | valid name img outcome =>
    cases hpr : (predict_single_core m img outcome).2 <;>
      simp [processFile, hpr, Event.isProgress, List.countP_cons]

/-- A save event in a per-file chunk comes from a readable entry whose
predict produced a detection, and its path prefixes the source filename
inside the output directory. -/
lemma processFile_saved_iff (m : ModelState) (total i : Nat)
    (e : FileEntry) (path : String) (img : Image)
    (h : Event.saved path img ∈ processFile m total i e) :
    ∃ name img0 outc det, e = FileEntry.valid name img0 outc ∧
      (predict_single_core m img0 outc).2 = some det ∧
      path = "output/detected_" ++ name ∧
      img = (predict_single_core m img0 outc).1 := by
  cases e with
  | invalid name => simp [processFile] at h
  | raisesErr name msg => simp [processFile] at h
  | valid name img0 outc =>
    cases hpr : (predict_single_core m img0 outc).2 with
    | none =>
      simp [processFile, hpr] at h
    | some det =>
      simp [processFile, hpr] at h
      exact ⟨name, img0, outc, det, rfl, hpr, h.1, h.2⟩

/-- C5: the batch run emits the completion signal exactly once and as
its very last event; every entry of the file list, in order, contributes
its chunk of events as a contiguous part of the run, that chunk holds at
least one progress message and never the completion signal; and a file
is persisted only when the entry was readable and predict returned a
detection. -/
theorem runBatch_behaviour (m : ModelState) (files : List FileEntry) :
    (runBatch m files).countP Event.isFinished = 1 ∧
    (runBatch m files).getLast? = some Event.finished ∧
    (∀ p ∈ files.enum,
      (processFile m files.length p.1 p.2).IsInfix (runBatch m files) ∧
      1 ≤ (processFile m files.length p.1 p.2).countP Event.isProgress ∧
      (processFile m files.length p.1 p.2).countP Event.isFinished = 0) ∧
    (∀ total i e path img, Event.saved path img ∈ processFile m total i e →
      ∃ name img0 outc det, e = FileEntry.valid name img0 outc ∧
        (predict_single_core m img0 outc).2 = some det ∧
        path = "output/detected_" ++ name ∧
        img = (predict_single_core m img0 outc).1) := by
  refine ⟨?_, ?_, ?_, ?_⟩
  · rw [runBatch, List.countP_append, List.countP_flatten]
    have hz : ∀ c ∈ (files.enum.map
        (fun p => processFile m files.length p.1 p.2)).map
          (List.countP Event.isFinished), c = 0 := by
      intro c hc
      simp only [List.map_map, List.mem_map] at hc
      obtain ⟨p, _, hp⟩ := hc
      rw [← hp]
      exact processFile_no_finished m files.length p.1 p.2
    rw [List.sum_eq_zero hz]
    rfl
  · rw [runBatch]
    exact List.getLast?_concat _
  · intro p hp
    refine ⟨?_, processFile_has_progress m files.length p.1 p.2,
      processFile_no_finished m files.length p.1 p.2⟩
    have hmem : processFile m files.length p.1 p.2 ∈
        files.enum.map (fun q => processFile m files.length q.1 q.2) :=
      List.mem_map_of_mem _ hp
    exact (List.infix_of_mem_flatten hmem).trans
      (List.prefix_append _ _).isInfix
  · intro total i e path img h
    exact processFile_saved_iff m total i e path img h

/-- Concrete run of runBatch_behaviour: one unreadable file and one
entry that raises, under mock mode, plus one readable entry with a
detection under a real model for the persistence part. -/
theorem runBatch_behaviour_witness :
    (runBatch ⟨true, false, [(0, "Object")]⟩
      [FileEntry.invalid "a.jpg",
        FileEntry.raisesErr "b.jpg" "boom"]).countP Event.isFinished = 1 ∧
    (runBatch ⟨true, false, [(0, "Object")]⟩
      [FileEntry.invalid "a.jpg",
        FileEntry.raisesErr "b.jpg" "boom"]).getLast? =
      some Event.finished ∧
    (processFile ⟨true, false, [(0, "Object")]⟩ 2 0
      (FileEntry.invalid "a.jpg")).IsInfix
      (runBatch ⟨true, false, [(0, "Object")]⟩
        [FileEntry.invalid "a.jpg", FileEntry.raisesErr "b.jpg" "boom"]) ∧
    (∃ name img0 outc det,
      FileEntry.valid "c.jpg" (Image.base 1)
          (.ok [⟨mkRat 1 2, 0, 1, 2, 3, 4⟩]) =
        FileEntry.valid name img0 outc ∧
      (predict_single_core ⟨false, true, [(0, "Bin")]⟩ img0 outc).2 =
        some det ∧
      "output/detected_" ++ "c.jpg" = "output/detected_" ++ name ∧
      (predict_single_core ⟨false, true, [(0, "Bin")]⟩ (Image.base 1)
          (.ok [⟨mkRat 1 2, 0, 1, 2, 3, 4⟩])).1 =
        (predict_single_core ⟨false, true, [(0, "Bin")]⟩ img0 outc).1) :=
  ⟨(runBatch_behaviour ⟨true, false, [(0, "Object")]⟩
      [FileEntry.invalid "a.jpg", FileEntry.raisesErr "b.jpg" "boom"]).1,
    (runBatch_behaviour ⟨true, false, [(0, "Object")]⟩
      [FileEntry.invalid "a.jpg", FileEntry.raisesErr "b.jpg" "boom"]).2.1,
    ((runBatch_behaviour ⟨true, false, [(0, "Object")]⟩
      [FileEntry.invalid "a.jpg", FileEntry.raisesErr "b.jpg" "boom"]).2.2.1
      (0, FileEntry.invalid "a.jpg") (by decide)).1,
    (runBatch_behaviour ⟨false, true, [(0, "Bin")]⟩ []).2.2.2 1 0
      (FileEntry.valid "c.jpg" (Image.base 1)
        (.ok [⟨mkRat 1 2, 0, 1, 2, 3, 4⟩]))
      ("output/detected_" ++ "c.jpg")
      (predict_single_core ⟨false, true, [(0, "Bin")]⟩ (Image.base 1)
        (.ok [⟨mkRat 1 2, 0, 1, 2, 3, 4⟩])).1
      (by
        have hpr : (predict_single_core ⟨false, true, [(0, "Bin")]⟩
            (Image.base 1) (.ok [⟨mkRat 1 2, 0, 1, 2, 3, 4⟩])).2 =
            some ⟨"Bin", mkRat 1 2, some 0⟩ := rfl
        simp [processFile, hpr])⟩

/-- The strftime %Y%m%d_%H%M%S timestamp of the snapshot filename,
passed in as a structured wall-clock value. -/
structure Timestamp where
  year : Nat
  month : Nat
  day : Nat
  hour : Nat
  minute : Nat
  second : Nat
deriving DecidableEq, Repr

/-- Rendering of %Y%m%d_%H%M%S. -/
def fmtTimestamp (t : Timestamp) : String :=
  toString t.year ++ pad2 t.month ++ pad2 t.day ++ "_" ++
    pad2 t.hour ++ pad2 t.minute ++ pad2 t.second

/-- MainWindow.process_snapshot: the snapshot frame is mirrored
(cv2.flip with flag 1), run through the synchronous predict, the outcome
is logged, and the annotated result is persisted under
snapshots/snapshot_<timestamp>.jpg only when a detection was found. -/
def process_snapshot (m : ModelState) (snapshot_frame : Image)
    (t : Timestamp) (outcome : InferOutcome) : List Event :=
  let pr := predict_single_core m (Image.flipH snapshot_frame) outcome
  match pr.2 with
  | some det =>
    [Event.progress ("Snapshot: " ++ det.class_name ++
        " detected with confidence " ++ fmt2 det.confidence),
      Event.saved ("snapshots/snapshot_" ++ fmtTimestamp t ++ ".jpg") pr.1,
      Event.progress ("Saved to: snapshots/snapshot_" ++ fmtTimestamp t ++
        ".jpg")]
  | none =>
    [Event.progress "Snapshot: No objects detected",
      Event.progress "Image not saved (no detections)"]

/-- C8: batch outputs are persisted under the output directory with the
source filename prefixed by detected_, and only for entries whose
predict produced a detection; snapshots are persisted under the
snapshots directory with the timestamp-derived snapshot_ filename, and
only when a detection was found; conversely a detection always leads to
the corresponding save event. -/
theorem persisted_output_names (m : ModelState) :
    (∀ total i e path img, Event.saved path img ∈ processFile m total i e →
      ∃ name img0 outc det, e = FileEntry.valid name img0 outc ∧
        (predict_single_core m img0 outc).2 = some det ∧
        path = "output/detected_" ++ name) ∧
    (∀ frame t outcome path img,
      Event.saved path img ∈ process_snapshot m frame t outcome →
      path = "snapshots/snapshot_" ++ fmtTimestamp t ++ ".jpg" ∧
      ∃ det, (predict_single_core m (Image.flipH frame) outcome).2 =
        some det) ∧
    (∀ total i name img0 outc det,
      (predict_single_core m img0 outc).2 = some det →
      Event.saved ("output/detected_" ++ name)
          (predict_single_core m img0 outc).1 ∈
        processFile m total i (FileEntry.valid name img0 outc)) ∧
    (∀ frame t outcome det,
      (predict_single_core m (Image.flipH frame) outcome).2 = some det →
      Event.saved ("snapshots/snapshot_" ++ fmtTimestamp t ++ ".jpg")
          (predict_single_core m (Image.flipH frame) outcome).1 ∈
        process_snapshot m frame t outcome) := by
  refine ⟨?_, ?_, ?_, ?_⟩
  · intro total i e path img h
    obtain ⟨name, img0, outc, det, he, hdet, hpath, _⟩ :=
      processFile_saved_iff m total i e path img h
    exact ⟨name, img0, outc, det, he, hdet, hpath⟩
  · intro frame t outcome path img h
    cases hpr : (predict_single_core m (Image.flipH frame) outcome).2 with
    | none => simp [process_snapshot, hpr] at h
    | some det =>
      simp [process_snapshot, hpr] at h
      exact ⟨h.1, det, rfl⟩
  · intro total i name img0 outc det hdet
    simp [processFile, hdet]
  · intro frame t outcome det hdet
    simp [process_snapshot, hdet]

/-- Concrete run of persisted_output_names: a real-model detection is
saved under the detected_ name in the batch path and under the
timestamped name in the snapshot path. -/
theorem persisted_output_names_witness :
    (Event.saved ("output/detected_" ++ "d.jpg")
        (predict_single_core ⟨false, true, [(0, "Bin")]⟩ (Image.base 2)
          (.ok [⟨mkRat 1 2, 0, 1, 2, 3, 4⟩])).1 ∈
      processFile ⟨false, true, [(0, "Bin")]⟩ 1 0
        (FileEntry.valid "d.jpg" (Image.base 2)
          (.ok [⟨mkRat 1 2, 0, 1, 2, 3, 4⟩]))) ∧
    (Event.saved ("snapshots/snapshot_" ++
          fmtTimestamp ⟨2026, 10, 12, 9, 30, 0⟩ ++ ".jpg")
        (predict_single_core ⟨false, true, [(0, "Bin")]⟩
          (Image.flipH (Image.base 2))
          (.ok [⟨mkRat 1 2, 0, 1, 2, 3, 4⟩])).1 ∈
      process_snapshot ⟨false, true, [(0, "Bin")]⟩ (Image.base 2)
        ⟨2026, 10, 12, 9, 30, 0⟩ (.ok [⟨mkRat 1 2, 0, 1, 2, 3, 4⟩])) :=
  ⟨(persisted_output_names ⟨false, true, [(0, "Bin")]⟩).2.2.1 1 0 "d.jpg"
      (Image.base 2) (.ok [⟨mkRat 1 2, 0, 1, 2, 3, 4⟩])
      ⟨"Bin", mkRat 1 2, some 0⟩ (by rfl),
    (persisted_output_names ⟨false, true, [(0, "Bin")]⟩).2.2.2
      (Image.base 2) ⟨2026, 10, 12, 9, 30, 0⟩
      (.ok [⟨mkRat 1 2, 0, 1, 2, 3, 4⟩])
      ⟨"Bin", mkRat 1 2, some 0⟩ (by rfl)⟩

/-- One iteration outcome of the CameraThread.run loop past the pacing
sleep: the camera is missing or closed, the read returned False, the
read succeeded with a frame, or the body raised. -/
inductive Tick where
  | notOpen
  | readFail
  | readOk (frame : Image)
  | exc (msg : String)
deriving DecidableEq, Repr

/-- The observable signals of the camera loop. cameraError is the
camera_error signal; frameReady is frame_ready. The fps_update signal is
wall-clock driven and outside the claims, so it is not modelled. -/
inductive CamEvent where
  | frameReady (img : Image)
  | cameraError (msg : String)
deriving DecidableEq, Repr

/-- The loop-relevant state of CameraThread: the cooperative run flag,
the consecutive failure counter and the failure threshold (10 in
source). -/
structure CamState where
  is_running : Bool
  consecutive_failures : Nat
  max_failures : Nat
deriving DecidableEq, Repr

/-- One iteration of CameraThread.run on a tick: a successful read
resets the failure counter and emits the frame; every failure kind
increments the counter and the loop breaks, without any further action,
once the counter exceeds max_failures. The Bool says whether the loop
continues. -/
def camStep (st : CamState) (t : Tick) : CamState × List CamEvent × Bool :=
  match t with
  | .readOk f =>
    ({ st with consecutive_failures := 0 }, [CamEvent.frameReady f], true)
  | _ =>
    let st1 := { st with
      consecutive_failures := st.consecutive_failures + 1 }
    (st1, [], decide (st1.consecutive_failures ≤ st.max_failures))

/-- CameraThread.run: consumes iteration outcomes while is_running is
set, stopping early when the failure counter exceeds the threshold. -/
def camRun (st : CamState) (ticks : List Tick) : CamState × List CamEvent :=
  match ticks with
  | [] => (st, [])
  | t :: ts =>
    if !st.is_running then (st, [])
    else
      let s := camStep st t
      if s.2.2 then
        let r := camRun s.1 ts
        (r.1, s.2.1 ++ r.2)
      else (s.1, s.2.1)

/-- A single loop iteration never emits camera_error. -/
lemma camStep_no_error (st : CamState) (t : Tick) (msg : String) :
    CamEvent.cameraError msg ∉ (camStep st t).2.1 := by
  cases t <;> simp [camStep]

/-- A single loop iteration never touches the run flag. -/
lemma camStep_keeps_running (st : CamState) (t : Tick) :
    (camStep st t).1.is_running = st.is_running := by
  cases t <;> simp [camStep]

/-- C7 counterexample: eleven consecutive failed reads on a fresh
running camera loop with the source threshold of 10 abort the loop, but
afterwards the running flag is still true and no camera_error, indeed no
event at all, was emitted. -/
theorem camera_failure_no_idle_no_error :
    (camRun ⟨true, 0, 10⟩
      (List.replicate 11 Tick.readFail)).1.is_running = true ∧
    (camRun ⟨true, 0, 10⟩ (List.replicate 11 Tick.readFail)).2 = [] := by
  constructor <;> rfl

/-- C7 amended: once the count of consecutive read failures exceeds
max_failures the capture loop aborts and consumes no further
iterations, but the is_running flag keeps whatever value it had and the
loop never emits camera_error. -/
theorem camera_failure_aborts_silently (st : CamState)
    (ticks : List Tick) :
    (∀ msg, CamEvent.cameraError msg ∉ (camRun st ticks).2) ∧
    (camRun st ticks).1.is_running = st.is_running ∧
    (st.is_running = true → st.consecutive_failures = 0 →
      st.max_failures = 10 →
      ∀ rest, camRun st (List.replicate 11 Tick.readFail ++ rest) =
        camRun st (List.replicate 11 Tick.readFail)) := by
  refine ⟨?_, ?_, ?_⟩
  · intro msg
    induction ticks generalizing st with
    | nil => simp [camRun]
    | cons t ts ih =>
      by_cases hr : st.is_running
      · cases hc : (camStep st t).2.2 with
        | true =>
          simp only [camRun, hr, Bool.not_true, Bool.false_eq_true,
            if_false, hc, if_true, List.mem_append, not_or]
          exact ⟨camStep_no_error st t msg, ih (camStep st t).1⟩
        | false =>
          simp only [camRun, hr, Bool.not_true, Bool.false_eq_true,
            if_false, hc]
          exact camStep_no_error st t msg
      · simp [camRun, hr]
  · induction ticks generalizing st with
    | nil => simp [camRun]
    | cons t ts ih =>
      by_cases hr : st.is_running
      · cases hc : (camStep st t).2.2 with
        | true =>
          simp only [camRun, hr, Bool.not_true, Bool.false_eq_true,
            if_false, hc, if_true]
          rw [ih (camStep st t).1, camStep_keeps_running]
          exact hr
        | false =>
          simp only [camRun, hr, Bool.not_true, Bool.false_eq_true,
            if_false, hc]
          rw [camStep_keeps_running]
          exact hr
      · simp [camRun, hr]
  · intro h1 h2 h3 rest
    obtain ⟨r, cf, mf⟩ := st
    simp only at h1 h2 h3
    subst h1
    subst h2
    subst h3
    rfl

/-- Concrete run of camera_failure_aborts_silently: the fresh running
state with threshold 10 never emits camera_error, and after eleven
failed reads further iterations are ignored. -/
theorem camera_failure_aborts_silently_witness :
    (CamEvent.cameraError "lost" ∉
      (camRun ⟨true, 0, 10⟩ (List.replicate 11 Tick.readFail)).2) ∧
    camRun ⟨true, 0, 10⟩ (List.replicate 11 Tick.readFail ++
        [Tick.readOk (Image.base 0)]) =
      camRun ⟨true, 0, 10⟩ (List.replicate 11 Tick.readFail) :=
  ⟨(camera_failure_aborts_silently ⟨true, 0, 10⟩
      (List.replicate 11 Tick.readFail)).1 "lost",
    (camera_failure_aborts_silently ⟨true, 0, 10⟩
      (List.replicate 11 Tick.readFail)).2.2 rfl rfl rfl
      [Tick.readOk (Image.base 0)]⟩

end Classifier
